import Mathlib

/-!
Verification development for the K2 extractor component.

The definitions below are a shallow embedding of the repository's Python
sources (src/src/k2parser.py, src/src/component.py, src/src/k2_object_metadata.py,
src/src/table_handler.py).  Python dicts are modelled as insertion-ordered
association lists, mutation as state passing, and runtime errors
(KeyError / IndexError) as an Option result, where none models an
uncaught exception.
-/

/-! ## Insertion-ordered dictionaries (Python dict semantics) -/

/-- Lookup in an insertion-ordered association list (Python dict `get`). -/
def alGet {α : Type} : List (String × α) → String → Option α
  | [], _ => none
  | (k0, v0) :: rest, k => if k0 = k then some v0 else alGet rest k

/-- Python dict assignment `d[k] = v`: replace the value in place if the key
exists, otherwise append the new key at the end (insertion order). -/
def alSet {α : Type} : List (String × α) → String → α → List (String × α)
  | [], k, v => [(k, v)]
  | (k0, v0) :: rest, k, v =>
      if k0 = k then (k0, v) :: rest else (k0, v0) :: alSet rest k v

/-- Key list of an ordered dictionary, in insertion order. -/
def alKeys {α : Type} (l : List (String × α)) : List String :=
  l.map (fun p => p.1)

theorem alGet_alSet_self {α : Type} (l : List (String × α)) (k : String) (v : α) :
    alGet (alSet l k v) k = some v := by
  induction l with
  | nil => simp [alSet, alGet]
  | cons p rest ih =>
    by_cases h : p.1 = k
    · simp [alSet, alGet, h]
    · simp [alSet, alGet, h, ih]

theorem alSet_alSet_self {α : Type} (l : List (String × α)) (k : String) (a b : α) :
    alSet (alSet l k a) k b = alSet l k b := by
  induction l with
  | nil => simp [alSet]
  | cons p rest ih =>
    by_cases h : p.1 = k
    · simp [alSet, h]
    · simp [alSet, h, ih]

theorem alGet_alSet_ne {α : Type} (l : List (String × α)) (k k' : String) (v : α)
    (h : k' ≠ k) : alGet (alSet l k v) k' = alGet l k' := by
  induction l with
  | nil => simp [alSet, alGet, Ne.symm h]
  | cons p rest ih =>
    obtain ⟨k0, v0⟩ := p
    by_cases hp : k0 = k
    · subst hp
      simp [alSet, alGet, Ne.symm h]
    · by_cases hp' : k0 = k'
      · subst hp'
        simp [alSet, alGet, hp, h]
      · simp [alSet, alGet, hp, hp', ih]

/-! ## Payload data model (decoded JSON page items)

A decoded K2 record (`data_object` in k2parser.py) is a dict with a
`DOClassName` entry (possibly absent) and a `FieldValues` list.  Every
field has a `Name` and a `Value`; the value is either a plain scalar, a
dict tagged `DataObjectWrapper:K2.Data` (an embedded nested object), or a
dict tagged `ChildDataObjectWrapper:K2.Data` holding an `Items` list of
records (a child collection).  `KVal.null` models Python `None`. -/

mutual

inductive KVal : Type where
  | str : String → KVal
  | int : Int → KVal
  | bool : Bool → KVal
  | null : KVal
  | nestedObj : KRecord → KVal
  | childObj : List KRecord → KVal

inductive KRecord : Type where
  | mk : Option String → List KField → KRecord

inductive KField : Type where
  | mk : String → KVal → KField

end

/-- The `DOClassName` entry of a record (`data_object.get('DOClassName')`). -/
def KRecord.doClassName : KRecord → Option String
  | .mk c _ => c

/-- The `FieldValues` entry of a record. -/
def KRecord.fieldValues : KRecord → List KField
  | .mk _ fs => fs

/-- The `Name` entry of a field. -/
def KField.name : KField → String
  | .mk n _ => n

/-- The `Value` entry of a field. -/
def KField.value : KField → KVal
  | .mk _ v => v

/-- Python string interpolation of an optional string: `None` renders as
the four characters `None` in an f-string. -/
def pyStr (o : Option String) : String :=
  match o with
  | some s => s
  | none => "None"

/-! ## K2DataParser (src/src/k2parser.py) -/

/-- The `K2DataObject` enum of k2parser.py. -/
inductive K2DataObject : Type where
  | BASE
  | NESTED
  | CHILD_TABLE
deriving DecidableEq

/-- An entry of the parser's `child_objects` list: a dict with keys
`field_name` and `parent_primary_keys` (see
`K2DataParser.get_parent_pkeys_from_child`). -/
structure K2ChildObject : Type where
  field_name : String
  parent_primary_keys : List String

/-- `K2DataParser.get_data_type`: classify a field by the explicit
`__type` discriminator on its value; anything untagged is BASE. -/
def get_data_type (v : KVal) : K2DataObject :=
  match v with
  | .nestedObj _ => .NESTED
  | .childObj _ => .CHILD_TABLE
  | _ => .BASE

/-- `K2DataParser.get_primary_key`: scan the candidate key names in order
and return the name and value of the first one found among the given
fields; `(None, None)` when no candidate matches. -/
def get_primary_key (data : List KField) (pkeyNames : List String) :
    Option String × KVal :=
  match pkeyNames with
  | [] => (none, KVal.null)
  | pk :: rest =>
    match data.find? (fun f => f.name == pk) with
    | some f => (some f.name, f.value)
    | none => get_primary_key data rest

/-- `K2DataParser.get_parent_pkeys_from_child`: look the child field name
up in `child_objects`; fall back to `["RID", "ID", "Id"]` when no entry
matches. -/
def get_parent_pkeys_from_child (co : List K2ChildObject) (childTableName : String) :
    List String :=
  match co.find? (fun c => c.field_name == childTableName) with
  | some c => c.parent_primary_keys
  | none => ["RID", "ID", "Id"]

/-- A flattened output row: a Python dict from column name to value. -/
abbrev FlatRow : Type := List (String × KVal)

/-- The `table_data` accumulator: a Python dict from table name to row list. -/
abbrev TableData : Type := List (String × List FlatRow)

/-- `init_table` in `_parse_row_to_tables`: create an empty row list for
the key unless it is already present. -/
def init_table (td : TableData) (key : String) : TableData :=
  match alGet td key with
  | some _ => td
  | none => td ++ [(key, [])]

/-- `parse_object` in `_parse_row_to_tables`:
`table_data[table_name]` (KeyError modelled as none), append one empty
row while the list is shorter than `table_index + 1`, then write the
qualified cell `table_data[table_name][table_index][name] = value`
(IndexError modelled as none). -/
def parse_object (td : TableData) (tableName : String) (f : KField)
    (tableIndex : Nat) (parentName : String) : Option TableData :=
  match alGet td tableName with
  | none => none
  | some rows =>
    let rows := if rows.length < tableIndex + 1 then rows ++ [[]] else rows
    match rows.get? tableIndex with
    | none => none
    | some row =>
      let name := if parentName = "" then f.name else parentName ++ "_" ++ f.name
      some (alSet td tableName (rows.set tableIndex (alSet row name f.value)))

mutual

/-- The loop body of `parse_field` in `_parse_row_to_tables`: iterate the
field list of `customerData`, dispatching on `get_data_type`.  The whole
record is carried along because the CHILD_TABLE branch reads the sibling
field list and `DOClassName` of the enclosing record. -/
def parse_fields (co : List K2ChildObject) (customerData : KRecord)
    (fields : List KField) (tableName : String) (tableIndex : Nat)
    (parentName : String) (td : TableData) : Option TableData :=
  match fields with
  | [] => some td
  | KField.mk fname fval :: rest =>
    match fval with
    | .nestedObj r =>
      let newParentName :=
        if parentName = "" then fname else parentName ++ "_" ++ fname
      match parse_field co r tableName tableIndex newParentName td with
      | none => none
      | some td1 => parse_fields co customerData rest tableName tableIndex parentName td1
    | .childObj items =>
      let childTableName := fname
      let parentPkeys := get_parent_pkeys_from_child co childTableName
      let pk := get_primary_key customerData.fieldValues parentPkeys
      let pKeyName := pyStr customerData.doClassName ++ "_" ++ pyStr pk.1
      match parse_child_items co items 0 childTableName pKeyName pk.2
          (init_table td childTableName) with
      | none => none
      | some td1 => parse_fields co customerData rest tableName tableIndex parentName td1
    | _ =>
      match parse_object td tableName (KField.mk fname fval) tableIndex parentName with
      | none => none
      | some td1 => parse_fields co customerData rest tableName tableIndex parentName td1
termination_by structural fields

/-- `parse_field` in `_parse_row_to_tables`. -/
def parse_field (co : List K2ChildObject) (customerData : KRecord)
    (tableName : String) (tableIndex : Nat) (parentName : String)
    (td : TableData) : Option TableData :=
  match customerData with
  | .mk doCls fs =>
    parse_fields co (.mk doCls fs) fs tableName tableIndex parentName td
termination_by structural customerData

/-- The enumerate loop of `parse_child_table` in `_parse_row_to_tables`,
with the running element index made explicit: flatten every collection
element and stamp the foreign-key cell
`table_data[table_name][index][p_key_name] = p_key_val`. -/
def parse_child_items (co : List K2ChildObject) (items : List KRecord)
    (index : Nat) (tableName : String) (pKeyName : String) (pKeyVal : KVal)
    (td : TableData) : Option TableData :=
  match items with
  | [] => some td
  | it :: rest =>
    match parse_field co it tableName index "" td with
    | none => none
    | some td1 =>
      match alGet td1 tableName with
      | none => none
      | some rows =>
        match rows.get? index with
        | none => none
        | some row =>
          parse_child_items co rest (index + 1) tableName pKeyName pKeyVal
            (alSet td1 tableName (rows.set index (alSet row pKeyName pKeyVal)))
termination_by structural items

end

/-- `parse_child_table` in `_parse_row_to_tables`: ensure the destination
table exists, then run the stamping loop over the collection elements.
(The body is inlined at the call site inside the mutual block; this
wrapper is definitionally that body.) -/
def parse_child_table (co : List K2ChildObject) (items : List KRecord)
    (tableName : String) (pKeyName : String) (pKeyVal : KVal)
    (td : TableData) : Option TableData :=
  parse_child_items co items 0 tableName pKeyName pKeyVal (init_table td tableName)

/-- `K2DataParser._parse_row_to_tables`: seed `table_data` with the main
table and flatten one top-level record into it. -/
def parse_row_to_tables (co : List K2ChildObject) (dataObject : KRecord)
    (mainTableName : String) : Option TableData :=
  parse_field co dataObject mainTableName 0 "" [(mainTableName, [])]

/-- The merge loop of `K2DataParser.parse_data`: extend `final_data[key]`
for every key of a parsed row, creating missing keys in insertion order. -/
def merge_table_data (finalData : TableData) (parsed : TableData) : TableData :=
  parsed.foldl
    (fun acc p =>
      match alGet acc p.1 with
      | some rows => alSet acc p.1 (rows ++ p.2)
      | none => alSet (acc ++ [(p.1, [])]) p.1 p.2)
    finalData

/-- `K2DataParser.parse_data`: flatten every page item and merge the
per-item table dictionaries. -/
def parse_data (co : List K2ChildObject) (jsonData : List KRecord)
    (mainTableName : String) : Option TableData :=
  jsonData.foldl
    (fun acc row =>
      match acc with
      | none => none
      | some finalData =>
        match parse_row_to_tables co row mainTableName with
        | none => none
        | some parsed => some (merge_table_data finalData parsed))
    (some [])

/-! ## Object metadata model (src/src/k2_object_metadata.py) -/

/-- An entry of a metadata `ChildList`: a declared child relationship,
`FieldName` mapped to `ChildClassName`. -/
structure K2ChildEntry : Type where
  fieldName : String
  childClassName : String
deriving DecidableEq

/-- `K2ObjectMetadata`: the read-only view over one object class's
metadata used by the resolver (`ClassName`, the field names of
`PrimaryKeyFieldList`, and `ChildList`). -/
structure K2Meta : Type where
  className : String
  primaryKeyNames : List String
  childList : List K2ChildEntry
deriving DecidableEq

/-- `K2ObjectMetadata.get_child_class_name_from_field_name`: the declared
child class of a field name, or `None`. -/
def K2Meta.get_child_class_name_from_field_name (om : K2Meta)
    (childFieldName : String) : Option String :=
  (om.childList.find? (fun c => childFieldName == c.fieldName)).map
    (fun c => c.childClassName)

/-- The dictionary produced by `K2ObjectMetadata.get_child_metadata`: the
child's class and field name together with the parent's class name and
primary keys (a resolved ChildRelation). -/
structure ChildRel : Type where
  className : String
  fieldName : String
  parentClassName : String
  parentPrimaryKeys : List String
deriving DecidableEq

/-- `K2ObjectMetadata.get_child_metadata`. -/
def K2Meta.get_child_metadata (om : K2Meta) (childFieldName : String) :
    Option ChildRel :=
  (om.childList.find? (fun c => childFieldName == c.fieldName)).map
    (fun c => ⟨c.childClassName, c.fieldName, om.className, om.primaryKeyNames⟩)

/-! ## Child-relationship resolver (src/src/component.py)

`Component._get_object_metadata` is a metadata-provider call; it is
modelled as an environment `env : String → Option K2Meta`, where `none`
models the provider raising (surfaced as a run-fatal error). -/

/-- The character loop of Python `str.split('.')`: split the remaining
characters on every dot, `cur` being the segment read so far. -/
def pySplitDotChars : List Char → String → List String
  | [], cur => [cur]
  | c :: rest, cur =>
    if c = '.' then cur :: pySplitDotChars rest ""
    else pySplitDotChars rest (cur.push c)

/-- Python `field.split(".")`: the dot-separated segments of a field
path; a dot-free string yields the one-element list of itself. -/
def pySplitDot (s : String) : List String :=
  pySplitDotChars s.toList ""

/-- The recursion of `Component._find_child_object` over the segments of
a dotted field path (the source splits the field string on `.` and
recurses on the re-joined tail; here the path is split once and the
recursion walks the segment list, which is the same traversal).
Appends every discovered child relation to the accumulator.  The dotted
branch follows a declared child only when its class name is truthy
(Python: non-None and non-empty). -/
def find_child_object_segs (env : String → Option K2Meta) (om : K2Meta)
    (segs : List String) (acc : List ChildRel) : Option (List ChildRel) :=
  match segs with
  | [] => some acc
  | [seg] =>
    match om.get_child_class_name_from_field_name seg with
    | none => some acc
    | some cls =>
      if cls = "" then some acc
      else some (acc ++ (om.get_child_metadata seg).toList)
  | seg :: rest =>
    match om.get_child_class_name_from_field_name seg with
    | none => some acc
    | some cls =>
      if cls = "" then some acc
      else
        match env cls with
        | none => none
        | some childMeta =>
          find_child_object_segs env childMeta rest
            (acc ++ (om.get_child_metadata seg).toList)

/-- `Component._find_child_object` on one requested field string. -/
def find_child_object (env : String → Option K2Meta) (om : K2Meta)
    (k2ObjectField : String) : Option (List ChildRel) :=
  find_child_object_segs env om (pySplitDot k2ObjectField) []

/-- `Component._find_child_objects`: fetch the root metadata and collect
the child relations of every requested field, in request order. -/
def find_child_objects (env : String → Option K2Meta)
    (k2ObjectClassName : String) (k2ObjectFields : List String) :
    Option (List ChildRel) :=
  match env k2ObjectClassName with
  | none => none
  | some om =>
    k2ObjectFields.foldl
      (fun acc f =>
        match acc with
        | none => none
        | some cs =>
          match find_child_object env om f with
          | none => none
          | some more => some (cs ++ more))
      (some [])

/-- `Component._get_child_foreign_keys`: build the dictionary from
`f"{parent class name}_{child field name}"` to the parent's primary-key
names, one entry per distinct key. -/
def get_child_foreign_keys (env : String → Option K2Meta)
    (rootClassName : String) (fields : List String) :
    Option (List (String × List String)) :=
  match find_child_objects env rootClassName fields with
  | none => none
  | some childObjects =>
    childObjects.foldl
      (fun acc c =>
        match acc with
        | none => none
        | some d =>
          match env c.parentClassName with
          | none => none
          | some parentMeta =>
            some (alSet d (parentMeta.className ++ "_" ++ c.fieldName)
              parentMeta.primaryKeyNames))
      (some [])

/-! ## Row routing and run control flow (src/src/component.py) -/

/-- The routing loop of `Component._fetch_and_write_data` over one parsed
page: `for parsed_data_name in parsed_data: if parsed_data_name in
self.table_handlers: ...writerows(...)`.  The result is the list of
`writerows` calls actually performed, in iteration order; names without a
handler produce no call and raise nothing. -/
def route_parsed_data (handlerNames : List String) (parsedData : TableData) :
    List (String × List FlatRow) :=
  parsedData.filter (fun p => handlerNames.contains p.1)

/-- A transport failure surfaced by the client or HTTP layer while
paginating (`K2ClientException`, `requests` HTTP / connection errors).
These are the only exception types caught in `_fetch_and_write_data`,
and each is re-raised as a `UserException`. -/
inductive K2TransportErr : Type where
  | clientErr : String → K2TransportErr
  | httpErr : Nat → K2TransportErr
  | connectionErr : K2TransportErr
deriving DecidableEq

/-- An externally observable side effect of `Component.run` after the
table handlers are initialized: a `writerows` call on a handler, a
manifest write performed by `_close_table_handler`, or the final
`write_state_file`. -/
inductive RunEffect : Type where
  | wroteRows : String → List FlatRow → RunEffect
  | wroteManifest : String → RunEffect
  | wroteState : RunEffect

/-- The `writerows` effects of `_fetch_and_write_data`: every page that
the generator yielded before failing (or all pages, when it never fails)
is parsed and routed to the existing handlers. -/
def fetch_write_effects (handlerNames : List String)
    (parsedPages : List TableData) : List RunEffect :=
  parsedPages.flatMap
    (fun page => (route_parsed_data handlerNames page).map
      (fun p => RunEffect.wroteRows p.1 p.2))

/-- The tail of `Component.run` after `_init_table_handlers`
(component.py lines 99-102), with the transport stream modelled as the
pages successfully yielded plus an optional failure raised afterwards:
`_fetch_and_write_data` routes every yielded page, then a transport
failure (if any) is re-raised as a `UserException`, skipping
`_close_table_handlers` (which writes one manifest per handler) and
`write_state_file`.  Returns the effect list and whether the run
completed. -/
def run_after_init (handlerNames : List String) (parsedPages : List TableData)
    (transportFailure : Option K2TransportErr) : List RunEffect × Bool :=
  let writes := fetch_write_effects handlerNames parsedPages
  match transportFailure with
  | some _ => (writes, false)
  | none =>
    (writes ++ handlerNames.map RunEffect.wroteManifest ++ [RunEffect.wroteState],
      true)

/-! ## Table handler schema evolution (src/src/component.py and the
`ElasticDictWriter` collaborator)

The component seeds each handler's `ElasticDictWriter` with the column
list recorded for the table in the previous run's state
(`_init_main_table_handler` / `_init_child_table_handler`) and, in
`_close_table_handler`, persists `writer.fieldnames` into the new state.
`ElasticDictWriter` itself lives in the external `keboola.csvwriter`
package, not in this repository. -/

/-- Modelled from the spec: the `ElasticDictWriter` collaborator of
`keboola.csvwriter` (absent from src/), whose contract section 4.3 of the
spec states as: any column name present in a written row but absent from
the known columns is appended to them, discovery order, previously-known
columns always preceding new ones. -/
structure EDWriter : Type where
  fieldnames : List String

/-- Modelled from the spec: writing one row extends `fieldnames` with the
row's unseen keys, in row order. -/
def EDWriter.writerow (w : EDWriter) (row : FlatRow) : EDWriter :=
  ⟨row.foldl
    (fun cols p => if cols.contains p.1 then cols else cols ++ [p.1])
    w.fieldnames⟩

/-- Modelled from the spec: `writerows` writes the rows in order. -/
def EDWriter.writerows (w : EDWriter) (rows : List FlatRow) : EDWriter :=
  rows.foldl EDWriter.writerow w

/-- `Component._close_table_handler`, state part: after closing, the new
state's `previous_columns` entry for the handler's object class name is
set to the writer's final `fieldnames` (component.py line 505). -/
def close_table_handler_state (newState : List (String × List String))
    (k2ObjectName : String) (w : EDWriter) : List (String × List String) :=
  alSet newState k2ObjectName w.fieldnames

/-! ## Concrete fixtures

Scenario 1 of the spec: root `Invoice` (primary key `Id`), fields
`Number` and child collection `Lines`, one page with one invoice holding
two lines. -/

def invLine1 : KRecord := .mk (some "InvoiceLine") [.mk "LineId" (.int 10)]

def invLine2 : KRecord := .mk (some "InvoiceLine") [.mk "LineId" (.int 11)]

def invoiceRec : KRecord := .mk (some "Invoice")
  [.mk "Number" (.str "001"), .mk "Id" (.int 1),
   .mk "Lines" (.childObj [invLine1, invLine2])]

/-- The relation map handed to the parser for Scenario 1: field `Lines`,
parent primary keys `["Id"]`. -/
def coInv : List K2ChildObject := [⟨"Lines", ["Id"]⟩]

/-- The table dictionary the parser produces for Scenario 1 (checked
below by evaluation). -/
def invoiceParsed : TableData :=
  [("Invoice", [[("Number", KVal.str "001"), ("Id", KVal.int 1)]]),
   ("Lines", [[("LineId", KVal.int 10), ("Invoice_Id", KVal.int 1)],
              [("LineId", KVal.int 11), ("Invoice_Id", KVal.int 1)]])]

/-! Fixture for C2: parent class `P` with composite primary key
`A`, `B`, both present as sibling scalar fields, and one child element. -/

def c2Kid : KRecord := .mk (some "Kid") [.mk "x" (.str "v")]

def c2Parent : KRecord := .mk (some "P")
  [.mk "A" (.int 1), .mk "B" (.int 2), .mk "Kids" (.childObj [c2Kid])]

def c2Co : List K2ChildObject := [⟨"Kids", ["A", "B"]⟩]

/-- Parameterised variant of the C2 fixture, key values left symbolic. -/
def c2ParentVar (a b : Int) : KRecord := .mk (some "P")
  [.mk "A" (.int a), .mk "B" (.int b), .mk "Kids" (.childObj [c2Kid])]

/-- C2 edge-case fixture: the parent's primary keys are absent from its
sibling fields. -/
def c2ParentNoKey : KRecord := .mk (some "P")
  [.mk "C" (.str "c"), .mk "Kids" (.childObj [c2Kid])]

/-! Fixture for C3: a child collection field `Extras` that resolves to no
relation (empty relation map). -/

def c3Extra : KRecord := .mk (some "Extra") [.mk "y" (.str "z")]

def c3Parent : KRecord := .mk (some "P")
  [.mk "Id" (.int 7), .mk "Extras" (.childObj [c3Extra])]

/-! Fixtures for C4: metadata environment with root `R`, child `A` of
class `CA`, grandchild `B` of class `CB`. -/

def metaR : K2Meta := ⟨"R", ["RId"], [⟨"A", "CA"⟩]⟩

def metaCA : K2Meta := ⟨"CA", ["AId"], [⟨"B", "CB"⟩]⟩

def metaCB : K2Meta := ⟨"CB", ["BId"], []⟩

def envC4 : String → Option K2Meta := fun n =>
  if n = "R" then some metaR
  else if n = "CA" then some metaCA
  else if n = "CB" then some metaCB
  else none

def relA : ChildRel := ⟨"CA", "A", "R", ["RId"]⟩

def relB : ChildRel := ⟨"CB", "B", "CA", ["AId"]⟩

/-! ## Claim theorems -/

/-- Claim C1 (code_bug evidence).  The claim — and the component's own
handler naming (`_init_child_table_handler` registers handlers under
`{parent_class_name}_{field_name}`) — say child rows land in table
`Invoice_Lines`.  Evaluating the parser on Scenario 1 shows the rows are
keyed under the bare field name `Lines` instead: the parsed dictionary
has keys `Invoice` and `Lines`, no `Invoice_Lines` entry exists, and the
component's routing loop (`_fetch_and_write_data`), whose handlers are
named `Invoice` and `Invoice_Lines`, therefore writes only the main
table and drops every child row. -/
theorem claim_c1_child_rows_keyed_by_bare_field_name :
    parse_data coInv [invoiceRec] "Invoice" = some invoiceParsed ∧
    alKeys invoiceParsed = ["Invoice", "Lines"] ∧
    alGet invoiceParsed "Invoice_Lines" = none ∧
    route_parsed_data ["Invoice", "Invoice_Lines"] invoiceParsed
      = [("Invoice", [[("Number", KVal.str "001"), ("Id", KVal.int 1)]])] :=
  ⟨rfl, rfl, rfl, rfl⟩

/-- Claim C2, counterexample.  The claim says every parent primary key
yields a foreign-key column on every child row.  With composite parent
key `A`, `B`, both present as siblings, the emitted child row carries
only `P_A`; no column `P_B` exists. -/
theorem claim_c2_counterexample :
    parse_row_to_tables c2Co c2Parent "P"
      = some [("P", [[("A", KVal.int 1), ("B", KVal.int 2)]]),
              ("Kids", [[("x", KVal.str "v"), ("P_A", KVal.int 1)]])] ∧
    alGet [("x", KVal.str "v"), ("P_A", KVal.int 1)] "P_B" = none ∧
    alGet [("x", KVal.str "v"), ("P_A", KVal.int 1)] "P_A" = some (KVal.int 1) :=
  ⟨rfl, rfl, rfl⟩

/-- Claim C2 as amended: each child row is stamped with exactly one
foreign-key column, named `{DOClassName}_{k}` where `k` is the first
parent primary key found among the parent's sibling fields, carrying
that sibling's value; when no parent primary key is found among the
siblings, the single column is `{DOClassName}_None` with the null value
(still created). -/
theorem claim_c2_amended_single_fk_column (a b : Int) :
    parse_row_to_tables c2Co (c2ParentVar a b) "P"
      = some [("P", [[("A", KVal.int a), ("B", KVal.int b)]]),
              ("Kids", [[("x", KVal.str "v"), ("P_A", KVal.int a)]])] ∧
    parse_row_to_tables c2Co c2ParentNoKey "P"
      = some [("P", [[("C", KVal.str "c")]]),
              ("Kids", [[("x", KVal.str "v"), ("P_None", KVal.null)]])] :=
  ⟨rfl, rfl⟩

/-- Claim C3, counterexample.  The claim says a child collection whose
field name resolves to no known relation is skipped entirely (no rows,
no table entry).  With an empty relation map, flattening `c3Parent`
creates a table entry `Extras` holding one flattened row, stamped with
the fallback foreign key `P_Id` (from the default candidate key list). -/
theorem claim_c3_counterexample :
    parse_row_to_tables [] c3Parent "P"
      = some [("P", [[("Id", KVal.int 7)]]),
              ("Extras", [[("y", KVal.str "z"), ("P_Id", KVal.int 7)]])] ∧
    (alGet [("P", [[("Id", KVal.int 7)]]),
            ("Extras", [[("y", KVal.str "z"), ("P_Id", KVal.int 7)]])] "Extras")
      = some [[("y", KVal.str "z"), ("P_Id", KVal.int 7)]] :=
  ⟨rfl, rfl⟩

/-- Claim C3 as amended: a child collection whose field name matches no
relation-map entry is not skipped — `get_parent_pkeys_from_child` falls
back to the candidate key names `["RID", "ID", "Id"]` and the collection
is flattened into a table named by the bare field name; such rows
disappear only later, at the component's routing step, because no
handler bears the bare field name. -/
theorem claim_c3_amended_fallback_keys (co : List K2ChildObject) (name : String)
    (h : ∀ c ∈ co, c.field_name ≠ name) :
    get_parent_pkeys_from_child co name = ["RID", "ID", "Id"] ∧
    parse_row_to_tables [] c3Parent "P"
      = some [("P", [[("Id", KVal.int 7)]]),
              ("Extras", [[("y", KVal.str "z"), ("P_Id", KVal.int 7)]])] ∧
    route_parsed_data ["P"]
        [("P", [[("Id", KVal.int 7)]]),
         ("Extras", [[("y", KVal.str "z"), ("P_Id", KVal.int 7)]])]
      = [("P", [[("Id", KVal.int 7)]])] := by
  refine ⟨?_, rfl, rfl⟩
  have hnone : co.find? (fun c => c.field_name == name) = none := by
    rw [List.find?_eq_none]
    intro c hc
    simpa using h c hc
  simp [get_parent_pkeys_from_child, hnone]

/-- Witness for `claim_c3_amended_fallback_keys` at a concrete relation
map that does not mention `Extras`. -/
theorem claim_c3_amended_fallback_keys_witness :
    (∀ c ∈ [(⟨"Other", ["K"]⟩ : K2ChildObject)], c.field_name ≠ "Extras") ∧
    (get_parent_pkeys_from_child [⟨"Other", ["K"]⟩] "Extras" = ["RID", "ID", "Id"] ∧
     parse_row_to_tables [] c3Parent "P"
       = some [("P", [[("Id", KVal.int 7)]]),
               ("Extras", [[("y", KVal.str "z"), ("P_Id", KVal.int 7)]])] ∧
     route_parsed_data ["P"]
         [("P", [[("Id", KVal.int 7)]]),
          ("Extras", [[("y", KVal.str "z"), ("P_Id", KVal.int 7)]])]
       = [("P", [[("Id", KVal.int 7)]])]) :=
  ⟨by decide, claim_c3_amended_fallback_keys [⟨"Other", ["K"]⟩] "Extras" (by decide)⟩

/-- Claim C4, counterexample.  The claim says the resolver's output is
deduplicated by `(parent_class_name, field_name)`.  Resolving the field
list `A, A.B, A.B` against the C4 metadata yields five relations — the
relation for `A` three times and the relation for `A.B` twice — so the
output is not deduplicated. -/
theorem claim_c4_counterexample :
    find_child_objects envC4 "R" ["A", "A.B", "A.B"]
      = some [relA, relA, relB, relA, relB] ∧
    [relA, relA, relB, relA, relB].count relA = 3 ∧
    [relA, relA, relB, relA, relB].count relB = 2 :=
  ⟨rfl, by decide, by decide⟩

/-- Claim C4 as amended: `_find_child_objects` returns duplicates
(requesting `A, A.B, A.B` yields five ChildRelations); deduplication
happens only downstream, where the relations are keyed by
`{parent_class_name}_{field_name}` into dictionaries — the foreign-key
map of `_get_child_foreign_keys` ends up with exactly one entry per
distinct pair, identical to the map for the duplicate-free request. -/
theorem claim_c4_amended_downstream_dedup :
    get_child_foreign_keys envC4 "R" ["A", "A.B", "A.B"]
      = some [("R_A", ["RId"]), ("CA_B", ["AId"])] ∧
    get_child_foreign_keys envC4 "R" ["A", "A.B", "A.B"]
      = get_child_foreign_keys envC4 "R" ["A", "A.B"] :=
  ⟨rfl, rfl⟩

/-- Claim C5, counterexample.  The claim says a row batch targeting a
table without a handler fails the run immediately.  Running the
post-init pipeline with one handler `Invoice` on a parsed page whose only
batch targets `Lines` completes successfully — the batch is silently
dropped (no `wroteRows` effect), the manifest and state writes still
happen, and no error is raised. -/
theorem claim_c5_counterexample :
    run_after_init ["Invoice"] [[("Lines", [[("x", KVal.str "v")]])]] none
      = ([RunEffect.wroteManifest "Invoice", RunEffect.wroteState], true) :=
  rfl

/-- Claim C5 as amended: the routing loop of `_fetch_and_write_data`
silently skips every batch whose table name has no handler — prepending
such a batch leaves the performed writes unchanged, and no write for
that table name is ever performed. -/
theorem claim_c5_amended_silent_skip (handlerNames : List String)
    (parsedData : TableData) (name : String) (rows : List FlatRow)
    (h : handlerNames.contains name = false) :
    route_parsed_data handlerNames ((name, rows) :: parsedData)
      = route_parsed_data handlerNames parsedData ∧
    ∀ rs, (name, rs) ∉ route_parsed_data handlerNames parsedData := by
  constructor
  · simp only [route_parsed_data, List.filter_cons, h, if_neg]
    simp
  · intro rs hmem
    have hm := List.mem_filter.mp hmem
    rw [h] at hm
    exact Bool.false_ne_true hm.2

/-- Witness for `claim_c5_amended_silent_skip` with handler `Invoice`
and an unhandled batch for `Lines`. -/
theorem claim_c5_amended_silent_skip_witness :
    (["Invoice"].contains "Lines" = false) ∧
    (route_parsed_data ["Invoice"]
        [("Lines", [[("x", KVal.str "v")]]), ("Invoice", [[]])]
      = route_parsed_data ["Invoice"] [("Invoice", [[]])] ∧
    ∀ rs, ("Lines", rs) ∉ route_parsed_data ["Invoice"] [("Invoice", [[]])]) :=
  ⟨rfl, claim_c5_amended_silent_skip ["Invoice"] [("Invoice", [[]])] "Lines"
    [[("x", KVal.str "v")]] rfl⟩

/-! ## Schema-evolution lemmas (for C8) -/

theorem addcols_extends (row : FlatRow) :
    ∀ cols : List String, ∃ extra,
      row.foldl (fun cols p => if cols.contains p.1 then cols else cols ++ [p.1])
        cols = cols ++ extra := by
  induction row with
  | nil =>
    intro cols
    exact ⟨[], by simp⟩
  | cons p rest ih =>
    intro cols
    rw [List.foldl_cons]
    by_cases h : cols.contains p.1 = true
    · obtain ⟨extra, hex⟩ := ih cols
      exact ⟨extra, by rw [if_pos h, hex]⟩
    · obtain ⟨extra, hex⟩ := ih (cols ++ [p.1])
      refine ⟨p.1 :: extra, ?_⟩
      rw [if_neg h, hex, List.append_assoc]
      rfl

theorem edw_writerow_extends (w : EDWriter) (row : FlatRow) :
    ∃ extra, (EDWriter.writerow w row).fieldnames = w.fieldnames ++ extra := by
  cases w with
  | mk cols => exact addcols_extends row cols

theorem edw_writerows_extends (batches : List FlatRow) :
    ∀ w : EDWriter, ∃ extra,
      (EDWriter.writerows w batches).fieldnames = w.fieldnames ++ extra := by
  induction batches with
  | nil =>
    intro w
    exact ⟨[], by simp [EDWriter.writerows]⟩
  | cons row rest ih =>
    intro w
    obtain ⟨e1, h1⟩ := edw_writerow_extends w row
    obtain ⟨e2, h2⟩ := ih (EDWriter.writerow w row)
    refine ⟨e1 ++ e2, ?_⟩
    rw [EDWriter.writerows, List.foldl_cons, ← EDWriter.writerows, h2, h1,
      List.append_assoc]

/-- Claim C8: the column list persisted for a table at close is the
seeded column list (from the previous run's state) followed by the newly
discovered columns — previously-known columns keep their order and
position ahead of new ones — and each single row write only ever appends
columns, never removes or reorders them. -/
theorem claim_c8_column_monotonicity (seed : List String)
    (batches : List FlatRow) (newState : List (String × List String))
    (cls : String) :
    (∃ extra,
      alGet (close_table_handler_state newState cls
          (EDWriter.writerows ⟨seed⟩ batches)) cls = some (seed ++ extra)) ∧
    (∀ (w : EDWriter) (row : FlatRow), ∃ extra,
      (EDWriter.writerow w row).fieldnames = w.fieldnames ++ extra) := by
  constructor
  · obtain ⟨extra, hex⟩ := edw_writerows_extends batches ⟨seed⟩
    refine ⟨extra, ?_⟩
    rw [close_table_handler_state, alGet_alSet_self, hex]
  · intro w row
    exact edw_writerow_extends w row

/-- Claim C9: when a transport failure is raised while paginating, the
run aborts (completion flag false) before any handler is finalized — the
effect list contains no manifest write and no state write, only the row
writes of the pages already yielded. -/
theorem claim_c9_abort_before_finalize (handlerNames : List String)
    (parsedPages : List TableData) (e : K2TransportErr) :
    (run_after_init handlerNames parsedPages (some e)).2 = false ∧
    (∀ t, RunEffect.wroteManifest t ∉
      (run_after_init handlerNames parsedPages (some e)).1) ∧
    RunEffect.wroteState ∉ (run_after_init handlerNames parsedPages (some e)).1 := by
  have honly : ∀ x ∈ fetch_write_effects handlerNames parsedPages,
      ∃ t rs, x = RunEffect.wroteRows t rs := by
    intro x hx
    rw [fetch_write_effects, List.mem_flatMap] at hx
    obtain ⟨page, _, hmem⟩ := hx
    rw [List.mem_map] at hmem
    obtain ⟨p, _, hp⟩ := hmem
    exact ⟨p.1, p.2, hp.symm⟩
  refine ⟨rfl, ?_, ?_⟩
  · intro t hmem
    obtain ⟨t', rs', heq⟩ := honly _ hmem
    cases heq
  · intro hmem
    obtain ⟨t', rs', heq⟩ := honly _ hmem
    cases heq

/-! ## Nested-prefix machinery (for C6) -/

/-- The qualified-name rule of `parse_object`: the bare name under an
empty prefix, `{prefix}_{name}` otherwise. -/
def qualName (p n : String) : String :=
  if p = "" then n else p ++ "_" ++ n

/-- The prefix accumulated by `parse_field` while descending a chain of
nested-object levels, starting from `p`. -/
def chainPfx : String → List String → String
  | p, [] => p
  | p, a :: rest => chainPfx (qualName p a) rest

/-- A field wrapped in a chain of nested-object levels with the given
names. -/
def nestChain : List String → KField → KField
  | [], f => f
  | a :: rest, f => .mk a (.nestedObj (.mk none [nestChain rest f]))

theorem alSet_keys_of_mem {α : Type} (l : List (String × α)) (k : String)
    (v w : α) (h : alGet l k = some w) : alKeys (alSet l k v) = alKeys l := by
  induction l with
  | nil => cases h
  | cons p rest ih =>
    obtain ⟨k0, v0⟩ := p
    by_cases hp : k0 = k
    · simp [alSet, alKeys, hp]
    · rw [alGet, if_neg hp] at h
      have hrec := ih h
      simp only [alKeys] at hrec
      simp only [alSet, if_neg hp, alKeys, List.map_cons]
      rw [hrec]

/-- A scalar field nested under any chain of nested-object levels is
processed exactly as `parse_object` on the chained prefix: same table,
same row index, qualified column name `chainPfx`. -/
theorem parse_fields_nest_chain (co : List K2ChildObject) (names : List String) :
    ∀ (cd : KRecord) (fname : String) (v : KVal) (T : String) (idx : Nat)
      (p : String) (td : TableData), get_data_type v = K2DataObject.BASE →
      parse_fields co cd [nestChain names (.mk fname v)] T idx p td
        = parse_object td T (.mk fname v) idx (chainPfx p names) := by
  induction names with
  | nil =>
    intro cd fname v T idx p td hv
    cases v with
    | nestedObj r => exact absurd hv (by simp [get_data_type])
    | childObj its => exact absurd hv (by simp [get_data_type])
    | str s =>
      rw [nestChain, chainPfx]
      cases h : parse_object td T (.mk fname (.str s)) idx p <;>
        simp [parse_fields, h]
    | int n =>
      rw [nestChain, chainPfx]
      cases h : parse_object td T (.mk fname (.int n)) idx p <;>
        simp [parse_fields, h]
    | bool b =>
      rw [nestChain, chainPfx]
      cases h : parse_object td T (.mk fname (.bool b)) idx p <;>
        simp [parse_fields, h]
    | null =>
      rw [nestChain, chainPfx]
      cases h : parse_object td T (.mk fname .null) idx p <;>
        simp [parse_fields, h]
  | cons a rest ih =>
    intro cd fname v T idx p td hv
    rw [nestChain, chainPfx]
    have hinner := ih (.mk none [nestChain rest (.mk fname v)]) fname v T idx
      (qualName p a) td hv
    cases h : parse_object td T (.mk fname v) idx (chainPfx (qualName p a) rest) with
    | none =>
      rw [h] at hinner
      simp only [qualName] at hinner
      simp [parse_fields, parse_field, hinner]
    | some td1 =>
      rw [h] at hinner
      simp only [qualName] at hinner
      simp [parse_fields, parse_field, hinner]

theorem parse_object_preserves_keys (td : TableData) (T : String) (f : KField)
    (idx : Nat) (q : String) (td' : TableData)
    (h : parse_object td T f idx q = some td') : alKeys td' = alKeys td := by
  rw [parse_object] at h
  cases halg : alGet td T with
  | none => rw [halg] at h; cases h
  | some rows =>
    rw [halg] at h
    simp only at h
    cases hget : (if rows.length < idx + 1 then rows ++ [[]] else rows).get? idx with
    | none => rw [hget] at h; cases h
    | some row =>
      rw [hget] at h
      simp only [Option.some.injEq] at h
      subst h
      exact alSet_keys_of_mem td T _ rows halg

/-- Claim C6: a scalar reached through one or more enclosing
nested-object levels is written by `parse_object` into the current row
of the current table — the qualified column name being the underscore
chain of the enclosing nested names (`chainPfx`), the table-name set
unchanged — and a child-collection field is processed identically under
any ambient prefix (child tables start a fresh naming scope). -/
theorem claim_c6_nested_prefix_chaining (co : List K2ChildObject)
    (names : List String) (fname : String) (v : KVal) (cd : KRecord)
    (T : String) (idx : Nat) (td : TableData)
    (hv : get_data_type v = K2DataObject.BASE) :
    parse_fields co cd [nestChain names (.mk fname v)] T idx "" td
      = parse_object td T (.mk fname v) idx (chainPfx "" names) ∧
    (∀ td', parse_object td T (.mk fname v) idx (chainPfx "" names) = some td' →
      alKeys td' = alKeys td) ∧
    (∀ (cname : String) (items : List KRecord) (p1 p2 : String),
      parse_fields co cd [KField.mk cname (.childObj items)] T idx p1 td
        = parse_fields co cd [KField.mk cname (.childObj items)] T idx p2 td) := by
  refine ⟨parse_fields_nest_chain co names cd fname v T idx "" td hv, ?_, ?_⟩
  · intro td' h
    exact parse_object_preserves_keys td T _ idx _ td' h
  · intro cname items p1 p2
    cases h : parse_child_items co items 0 cname
        (pyStr cd.doClassName ++ "_" ++
          pyStr (get_primary_key cd.fieldValues
            (get_parent_pkeys_from_child co cname)).1)
        (get_primary_key cd.fieldValues
          (get_parent_pkeys_from_child co cname)).2
        (init_table td cname) <;>
      simp [parse_fields, h]

/-- Witness for `claim_c6_nested_prefix_chaining`: the spec's
`Address` / `City` example under root table `Customer` — the qualified
column is `Address_City`. -/
theorem claim_c6_nested_prefix_chaining_witness :
    (get_data_type (KVal.str "Prague") = K2DataObject.BASE) ∧
    qualName (chainPfx "" ["Address"]) "City" = "Address_City" ∧
    (parse_fields [] (.mk (some "Customer") [])
        [nestChain ["Address"] (.mk "City" (KVal.str "Prague"))] "Customer" 0 ""
        [("Customer", [])]
      = parse_object [("Customer", [])] "Customer"
          (.mk "City" (KVal.str "Prague")) 0 (chainPfx "" ["Address"]) ∧
    (∀ td', parse_object [("Customer", [])] "Customer"
        (.mk "City" (KVal.str "Prague")) 0 (chainPfx "" ["Address"]) = some td' →
      alKeys td' = alKeys ([("Customer", [])] : TableData)) ∧
    (∀ (cname : String) (items : List KRecord) (p1 p2 : String),
      parse_fields [] (.mk (some "Customer") [])
          [KField.mk cname (.childObj items)] "Customer" 0 p1 [("Customer", [])]
        = parse_fields [] (.mk (some "Customer") [])
            [KField.mk cname (.childObj items)] "Customer" 0 p2
            [("Customer", [])])) :=
  ⟨rfl, rfl,
    claim_c6_nested_prefix_chaining [] ["Address"] "City" (KVal.str "Prague")
      (.mk (some "Customer") []) "Customer" 0 [("Customer", [])] rfl⟩

/-! ## Flat-record machinery (for C7) -/

/-- The row a flat (all-scalar) record folds into: each field written in
order under its own name. -/
def flatRowOf (it : KRecord) : FlatRow :=
  it.fieldValues.foldl (fun row f => alSet row f.name f.value) []

/-- Every immediate field of the record is BASE-classified. -/
def allBaseFields (it : KRecord) : Bool :=
  it.fieldValues.all (fun f => get_data_type f.value == K2DataObject.BASE)

theorem get_append_len {α : Type} (rs : List α) (r : α) :
    (rs ++ [r]).get? rs.length = some r := by
  induction rs with
  | nil => rfl
  | cons a l ih => simp [ih]

theorem set_append_len {α : Type} (rs : List α) (r x : α) :
    (rs ++ [r]).set rs.length x = rs ++ [x] := by
  induction rs with
  | nil => rfl
  | cons a l ih => simp [List.set, ih]

theorem alSet_self_of_get {α : Type} (l : List (String × α)) (k : String)
    (v : α) (h : alGet l k = some v) : alSet l k v = l := by
  induction l with
  | nil => cases h
  | cons p rest ih =>
    obtain ⟨k0, v0⟩ := p
    by_cases hp : k0 = k
    · rw [alGet, if_pos hp] at h
      cases h
      rw [alSet, if_pos hp]
    · rw [alGet, if_neg hp] at h
      rw [alSet, if_neg hp, ih h]

theorem alGet_append_of_none {α : Type} (l l2 : List (String × α)) (k : String)
    (h : alGet l k = none) : alGet (l ++ l2) k = alGet l2 k := by
  induction l with
  | nil => rfl
  | cons p rest ih =>
    obtain ⟨k0, v0⟩ := p
    by_cases hp : k0 = k
    · rw [alGet, if_pos hp] at h
      cases h
    · rw [alGet, if_neg hp] at h
      rw [List.cons_append, alGet, if_neg hp, ih h]

theorem alGet_init_of_none (td : TableData) (T : String)
    (h : alGet td T = none) : alGet (init_table td T) T = some [] := by
  rw [init_table, h, alGet_append_of_none td _ T h, alGet, if_pos rfl]

/-- Evaluation of `parse_object` at the row just past `rs`: the current
row exists, so no padding row is appended and the cell is written into
it. -/
theorem parse_object_at_end (td : TableData) (T fn : String) (fv : KVal)
    (rs : List FlatRow) (r : FlatRow) (halg : alGet td T = some (rs ++ [r])) :
    parse_object td T (.mk fn fv) rs.length ""
      = some (alSet td T (rs ++ [alSet r fn fv])) := by
  rw [parse_object, halg]
  simp only [List.length_append, List.length_cons, List.length_nil, Nat.zero_add,
    Nat.lt_irrefl, if_false, get_append_len, KField.name, KField.value,
    if_pos rfl, ite_true, set_append_len]

/-- Evaluation of `parse_object` one past the end of the table: a fresh
empty row is appended and the cell written into it. -/
theorem parse_object_append_end (td : TableData) (T fn : String) (fv : KVal)
    (rs : List FlatRow) (halg : alGet td T = some rs) :
    parse_object td T (.mk fn fv) rs.length ""
      = some (alSet td T (rs ++ [alSet [] fn fv])) := by
  rw [parse_object, halg]
  simp only [Nat.lt_succ_self, if_pos, get_append_len, KField.name, KField.value,
    if_pos rfl, ite_true, set_append_len]

/-- Processing a run of BASE fields at the row just past `rs` folds them
all into that row. -/
theorem parse_fields_flat (co : List K2ChildObject) (cd : KRecord) (T : String) :
    ∀ (fields : List KField) (rs : List FlatRow) (r : FlatRow) (td : TableData),
      (∀ f ∈ fields, get_data_type f.value = K2DataObject.BASE) →
      alGet td T = some (rs ++ [r]) →
      parse_fields co cd fields T rs.length "" td
        = some (alSet td T
            (rs ++ [fields.foldl (fun row f => alSet row f.name f.value) r])) := by
  intro fields
  induction fields with
  | nil =>
    intro rs r td _ halg
    rw [List.foldl_nil]
    simp only [parse_fields]
    rw [alSet_self_of_get td T _ halg]
  | cons f rest ih =>
    intro rs r td hbase halg
    obtain ⟨fn, fv⟩ := f
    have hb : get_data_type fv = K2DataObject.BASE := by
      simpa using hbase (.mk fn fv) (List.mem_cons_self _ _)
    have hrest : ∀ f ∈ rest, get_data_type f.value = K2DataObject.BASE :=
      fun f hf => hbase f (List.mem_cons_of_mem _ hf)
    have hobj := parse_object_at_end td T fn fv rs r halg
    cases fv with
    | nestedObj r' => exact absurd hb (by simp [get_data_type])
    | childObj its => exact absurd hb (by simp [get_data_type])
    | str s =>
      simp only [parse_fields, hobj]
      rw [ih rs (alSet r fn (.str s)) _ hrest (alGet_alSet_self _ _ _),
        alSet_alSet_self, List.foldl_cons]
      simp [KField.name, KField.value]
    | int n =>
      simp only [parse_fields, hobj]
      rw [ih rs (alSet r fn (.int n)) _ hrest (alGet_alSet_self _ _ _),
        alSet_alSet_self, List.foldl_cons]
      simp [KField.name, KField.value]
    | bool b =>
      simp only [parse_fields, hobj]
      rw [ih rs (alSet r fn (.bool b)) _ hrest (alGet_alSet_self _ _ _),
        alSet_alSet_self, List.foldl_cons]
      simp [KField.name, KField.value]
    | null =>
      simp only [parse_fields, hobj]
      rw [ih rs (alSet r fn .null) _ hrest (alGet_alSet_self _ _ _),
        alSet_alSet_self, List.foldl_cons]
      simp [KField.name, KField.value]

/-- Flattening a flat (all-scalar, nonempty) record at the index one
past the current rows appends exactly one row, the record's own fold. -/
theorem parse_field_flat_start (co : List K2ChildObject) (cd : KRecord)
    (T : String) (rs : List FlatRow) (td : TableData)
    (hb : allBaseFields cd = true) (hne : cd.fieldValues.isEmpty = false)
    (halg : alGet td T = some rs) :
    parse_field co cd T rs.length "" td
      = some (alSet td T (rs ++ [flatRowOf cd])) := by
  obtain ⟨doCls, fs⟩ := cd
  cases fs with
  | nil => simp [KRecord.fieldValues, List.isEmpty] at hne
  | cons f rest =>
    obtain ⟨fn, fv⟩ := f
    have hall : ∀ g ∈ KField.mk fn fv :: rest,
        get_data_type g.value = K2DataObject.BASE := by
      intro g hg
      have hb' : (KField.mk fn fv :: rest).all
          (fun f => get_data_type f.value == K2DataObject.BASE) = true := by
        simpa [allBaseFields, KRecord.fieldValues] using hb
      have := List.all_eq_true.mp hb' g hg
      simpa using this
    have hb0 : get_data_type fv = K2DataObject.BASE := by
      simpa using hall (.mk fn fv) (List.mem_cons_self _ _)
    have hrest : ∀ g ∈ rest, get_data_type g.value = K2DataObject.BASE :=
      fun g hg => hall g (List.mem_cons_of_mem _ hg)
    have hobj := parse_object_append_end td T fn fv rs halg
    have hfold : flatRowOf (.mk doCls (KField.mk fn fv :: rest))
        = rest.foldl (fun row f => alSet row f.name f.value) (alSet [] fn fv) := by
      simp [flatRowOf, KRecord.fieldValues, KField.name, KField.value]
    cases fv with
    | nestedObj r' => exact absurd hb0 (by simp [get_data_type])
    | childObj its => exact absurd hb0 (by simp [get_data_type])
    | str s =>
      simp only [parse_field, KRecord.fieldValues, parse_fields, hobj]
      rw [parse_fields_flat co _ T rest rs (alSet [] fn (.str s)) _ hrest
        (alGet_alSet_self _ _ _), alSet_alSet_self, hfold]
    | int n =>
      simp only [parse_field, KRecord.fieldValues, parse_fields, hobj]
      rw [parse_fields_flat co _ T rest rs (alSet [] fn (.int n)) _ hrest
        (alGet_alSet_self _ _ _), alSet_alSet_self, hfold]
    | bool b =>
      simp only [parse_field, KRecord.fieldValues, parse_fields, hobj]
      rw [parse_fields_flat co _ T rest rs (alSet [] fn (.bool b)) _ hrest
        (alGet_alSet_self _ _ _), alSet_alSet_self, hfold]
    | null =>
      simp only [parse_field, KRecord.fieldValues, parse_fields, hobj]
      rw [parse_fields_flat co _ T rest rs (alSet [] fn .null) _ hrest
        (alGet_alSet_self _ _ _), alSet_alSet_self, hfold]

/-- The stamping loop on flat records: starting with rows `rs`, the
elements are appended in source order, each flattened and stamped with
the foreign-key cell. -/
theorem parse_child_items_order (co : List K2ChildObject) (T pkn : String)
    (pkv : KVal) :
    ∀ (items : List KRecord) (rs : List FlatRow) (td : TableData),
      (∀ it ∈ items, allBaseFields it = true ∧ it.fieldValues.isEmpty = false) →
      alGet td T = some rs →
      parse_child_items co items rs.length T pkn pkv td
        = some (alSet td T
            (rs ++ items.map (fun it => alSet (flatRowOf it) pkn pkv))) := by
  intro items
  induction items with
  | nil =>
    intro rs td _ halg
    simp only [parse_child_items]
    rw [List.map_nil, List.append_nil, alSet_self_of_get td T rs halg]
  | cons it rest ih =>
    intro rs td hflat halg
    have h1 := (hflat it (List.mem_cons_self _ _)).1
    have h2 := (hflat it (List.mem_cons_self _ _)).2
    have hrest : ∀ x ∈ rest, allBaseFields x = true ∧ x.fieldValues.isEmpty = false :=
      fun x hx => hflat x (List.mem_cons_of_mem _ hx)
    have hstart := parse_field_flat_start co it T rs td h1 h2 halg
    simp only [parse_child_items, hstart, alGet_alSet_self, get_append_len,
      set_append_len, alSet_alSet_self]
    have hlen : rs.length + 1 = (rs ++ [alSet (flatRowOf it) pkn pkv]).length := by
      simp
    rw [hlen, ih (rs ++ [alSet (flatRowOf it) pkn pkv]) _ hrest
      (alGet_alSet_self _ _ _), alSet_alSet_self]
    simp [List.map_cons, List.append_assoc]

/-- Claim C7: flattening is deterministic — the embedding is a pure
function, so flattening the same input twice is literally the same
computation — and, within one page, a child collection of flat records
is emitted in exactly the source order: when the destination table is
fresh, the resulting row list is the elementwise image (flatten, then
stamp the foreign-key cell) of the collection, in order. -/
theorem claim_c7_deterministic_and_order_preserving (co : List K2ChildObject)
    (jsonData : List KRecord) (mainTableName : String) (items : List KRecord)
    (T pkn : String) (pkv : KVal) (td : TableData)
    (h1 : ∀ it ∈ items, allBaseFields it = true ∧ it.fieldValues.isEmpty = false)
    (h2 : alGet td T = none) :
    parse_data co jsonData mainTableName = parse_data co jsonData mainTableName ∧
    parse_child_table co items T pkn pkv td
      = some (alSet (init_table td T) T
          (items.map (fun it => alSet (flatRowOf it) pkn pkv))) ∧
    (∀ td', parse_child_table co items T pkn pkv td = some td' →
      alGet td' T = some (items.map (fun it => alSet (flatRowOf it) pkn pkv))) := by
  have hinit := alGet_init_of_none td T h2
  have horder := parse_child_items_order co T pkn pkv items [] (init_table td T)
    h1 hinit
  simp only [List.length_nil, List.nil_append] at horder
  refine ⟨rfl, ?_, ?_⟩
  · rw [parse_child_table, horder]
  · intro td' h
    rw [parse_child_table, horder] at h
    cases h
    exact alGet_alSet_self _ _ _

/-- Witness for `claim_c7_deterministic_and_order_preserving`: a
two-element collection of flat records under a fresh table `C`. -/
theorem claim_c7_deterministic_and_order_preserving_witness :
    (∀ it ∈ [KRecord.mk none [.mk "a" (KVal.int 1)],
             KRecord.mk none [.mk "b" (KVal.int 2)]],
      allBaseFields it = true ∧ it.fieldValues.isEmpty = false) ∧
    (alGet ([] : TableData) "C" = none) ∧
    (parse_data [] [] "M" = parse_data [] [] "M" ∧
    parse_child_table [] [KRecord.mk none [.mk "a" (KVal.int 1)],
        KRecord.mk none [.mk "b" (KVal.int 2)]] "C" "FK" (KVal.int 7) []
      = some (alSet (init_table [] "C") "C"
          ([KRecord.mk none [.mk "a" (KVal.int 1)],
            KRecord.mk none [.mk "b" (KVal.int 2)]].map
            (fun it => alSet (flatRowOf it) "FK" (KVal.int 7)))) ∧
    (∀ td', parse_child_table [] [KRecord.mk none [.mk "a" (KVal.int 1)],
        KRecord.mk none [.mk "b" (KVal.int 2)]] "C" "FK" (KVal.int 7) []
        = some td' →
      alGet td' "C" = some ([KRecord.mk none [.mk "a" (KVal.int 1)],
          KRecord.mk none [.mk "b" (KVal.int 2)]].map
          (fun it => alSet (flatRowOf it) "FK" (KVal.int 7))))) :=
  ⟨by
    intro it hit
    simp only [List.mem_cons, List.not_mem_nil, or_false] at hit
    rcases hit with h | h <;> subst h <;> exact ⟨rfl, rfl⟩,
  rfl,
  claim_c7_deterministic_and_order_preserving [] [] "M"
    [KRecord.mk none [.mk "a" (KVal.int 1)], KRecord.mk none [.mk "b" (KVal.int 2)]]
    "C" "FK" (KVal.int 7) []
    (by
      intro it hit
      simp only [List.mem_cons, List.not_mem_nil, or_false] at hit
      rcases hit with h | h <;> subst h <;> exact ⟨rfl, rfl⟩)
    rfl⟩

/-! ## Scalar-free subtrees (for C10) -/

mutual

/-- The record's whole subtree contains no BASE-classified field. -/
def recNoBase : KRecord → Bool
  | .mk _ fs => fieldsNoBase fs

/-- No BASE-classified field anywhere below these fields. -/
def fieldsNoBase : List KField → Bool
  | [] => true
  | .mk _ v :: rest => valNoBase v && fieldsNoBase rest

/-- A value that is not BASE-classified and whose subtree has no
BASE-classified field. -/
def valNoBase : KVal → Bool
  | .nestedObj r => recNoBase r
  | .childObj items => itemsNoBase items
  | _ => false

/-- No BASE-classified field anywhere below these collection elements. -/
def itemsNoBase : List KRecord → Bool
  | [] => true
  | it :: rest => recNoBase it && itemsNoBase rest

end

/-- The number of rows currently held for table `t`. -/
def rowsLen (td : TableData) (t : String) : Nat :=
  ((alGet td t).getD []).length

theorem rowsLen_append_empty (td : TableData) (k t : String) :
    rowsLen (td ++ [(k, [])]) t = rowsLen td t := by
  induction td with
  | nil =>
    by_cases h : k = t <;> simp [rowsLen, alGet, h]
  | cons p rest ih =>
    obtain ⟨k0, v0⟩ := p
    by_cases h : k0 = t
    · simp [rowsLen, alGet, h]
    · simp only [List.cons_append, rowsLen, alGet, if_neg h]
      simpa [rowsLen] using ih

theorem rowsLen_init (td : TableData) (k t : String) :
    rowsLen (init_table td k) t = rowsLen td t := by
  rw [init_table]
  cases h : alGet td k with
  | some w => rfl
  | none => exact rowsLen_append_empty td k t

theorem rowsLen_alSet_set (td : TableData) (tname : String)
    (rows : List FlatRow) (idx : Nat) (x : FlatRow)
    (halg : alGet td tname = some rows) (t : String) :
    rowsLen (alSet td tname (rows.set idx x)) t = rowsLen td t := by
  by_cases h : t = tname
  · subst h
    rw [rowsLen, alGet_alSet_self]
    simp [rowsLen, halg]
  · rw [rowsLen, alGet_alSet_ne td tname t _ h]
    rfl

mutual

/-- Processing a scalar-free field list either fails or leaves every
table's row count unchanged (tables may be created empty and existing
rows may be stamped in place, but no row is ever appended). -/
theorem parse_fields_norow (co : List K2ChildObject) (cd : KRecord)
    (fields : List KField) (T : String) (idx : Nat) (p : String)
    (td : TableData) (h : fieldsNoBase fields = true) :
    parse_fields co cd fields T idx p td = none ∨
    ∃ td', parse_fields co cd fields T idx p td = some td' ∧
      ∀ t, rowsLen td' t = rowsLen td t := by
  cases fields with
  | nil => exact Or.inr ⟨td, by simp [parse_fields], fun t => rfl⟩
  | cons f rest =>
    cases hf : f with
    | mk fn fv =>
    rw [hf] at h
    simp only [fieldsNoBase, Bool.and_eq_true] at h
    obtain ⟨hv, hr⟩ := h
    cases hfv : fv with
    | str s => rw [hfv] at hv; simp [valNoBase] at hv
    | int n => rw [hfv] at hv; simp [valNoBase] at hv
    | bool b => rw [hfv] at hv; simp [valNoBase] at hv
    | null => rw [hfv] at hv; simp [valNoBase] at hv
    | nestedObj r =>
      cases hr2 : r with
      | mk doCls fs =>
      have hfs : fieldsNoBase fs = true := by
        rw [hfv, hr2] at hv
        simpa [valNoBase, recNoBase] using hv
      have hrec := parse_fields_norow co (.mk doCls fs) fs T idx
        (if p = "" then fn else p ++ "_" ++ fn) td hfs
      cases hrec with
      | inl hnone =>
        exact Or.inl (by simp only [parse_fields, parse_field, hnone])
      | inr hsome =>
        obtain ⟨td1, heq, hpres⟩ := hsome
        have hrest := parse_fields_norow co cd rest T idx p td1 hr
        cases hrest with
        | inl hnone2 =>
          exact Or.inl (by simp only [parse_fields, parse_field, heq, hnone2])
        | inr hsome2 =>
          obtain ⟨td2, heq2, hpres2⟩ := hsome2
          exact Or.inr ⟨td2,
            by simp only [parse_fields, parse_field, heq, heq2],
            fun t => (hpres2 t).trans (hpres t)⟩
    | childObj items =>
      have hits : itemsNoBase items = true := by
        rw [hfv] at hv
        simpa [valNoBase] using hv
      have hrec := parse_child_items_norow co items 0 fn
        (pyStr cd.doClassName ++ "_" ++
          pyStr (get_primary_key cd.fieldValues
            (get_parent_pkeys_from_child co fn)).1)
        (get_primary_key cd.fieldValues (get_parent_pkeys_from_child co fn)).2
        (init_table td fn) hits
      cases hrec with
      | inl hnone =>
        exact Or.inl (by simp only [parse_fields, hnone])
      | inr hsome =>
        obtain ⟨td1, heq, hpres⟩ := hsome
        have hrest := parse_fields_norow co cd rest T idx p td1 hr
        cases hrest with
        | inl hnone2 =>
          exact Or.inl (by simp only [parse_fields, heq, hnone2])
        | inr hsome2 =>
          obtain ⟨td2, heq2, hpres2⟩ := hsome2
          exact Or.inr ⟨td2, by simp only [parse_fields, heq, heq2],
            fun t => ((hpres2 t).trans (hpres t)).trans (rowsLen_init td fn t)⟩
termination_by sizeOf fields
decreasing_by
  all_goals simp_wf
  all_goals subst_vars
  all_goals simp_arith

/-- The stamping loop over scalar-free elements either fails or leaves
every table's row count unchanged. -/
theorem parse_child_items_norow (co : List K2ChildObject)
    (items : List KRecord) (idx : Nat) (tname pkn : String) (pkv : KVal)
    (td : TableData) (h : itemsNoBase items = true) :
    parse_child_items co items idx tname pkn pkv td = none ∨
    ∃ td', parse_child_items co items idx tname pkn pkv td = some td' ∧
      ∀ t, rowsLen td' t = rowsLen td t := by
  cases items with
  | nil => exact Or.inr ⟨td, by simp [parse_child_items], fun t => rfl⟩
  | cons it rest =>
    simp only [itemsNoBase, Bool.and_eq_true] at h
    obtain ⟨hit, hr⟩ := h
    cases hh : it with
    | mk doCls fs =>
    rw [hh] at hit
    have hfs : fieldsNoBase fs = true := by simpa [recNoBase] using hit
    have hrec := parse_fields_norow co (.mk doCls fs) fs tname idx "" td hfs
    cases hrec with
    | inl hnone =>
      exact Or.inl (by simp only [parse_child_items, parse_field, hnone])
    | inr hsome =>
      obtain ⟨td1, heq, hpres⟩ := hsome
      cases halg : alGet td1 tname with
      | none =>
        exact Or.inl (by simp only [parse_child_items, parse_field, heq, halg])
      | some rows =>
        cases hget : rows.get? idx with
        | none =>
          exact Or.inl
            (by simp only [parse_child_items, parse_field, heq, halg, hget])
        | some row =>
          have hrest := parse_child_items_norow co rest (idx + 1) tname pkn pkv
            (alSet td1 tname (rows.set idx (alSet row pkn pkv))) hr
          cases hrest with
          | inl hnone2 =>
            exact Or.inl (by simp only [parse_child_items, parse_field, heq,
              halg, hget, hnone2])
          | inr hsome2 =>
            obtain ⟨td2, heq2, hpres2⟩ := hsome2
            exact Or.inr ⟨td2,
              by simp only [parse_child_items, parse_field, heq, halg, hget, heq2],
              fun t => ((hpres2 t).trans
                (rowsLen_alSet_set td1 tname rows idx _ halg t)).trans (hpres t)⟩
termination_by sizeOf items
decreasing_by
  all_goals simp_wf
  all_goals subst_vars
  all_goals simp_arith

end

/-! ## C10 fixtures -/

/-- An element whose immediate field list has no BASE-classified field
(only a nested object, which itself holds a scalar). -/
def c10NestedElem : KRecord :=
  .mk none [.mk "N" (.nestedObj (.mk none [.mk "c" (.int 3)]))]

def c10FlatA : KRecord := .mk none [.mk "a" (.int 1)]

def c10FlatB : KRecord := .mk none [.mk "b" (.int 2)]

/-- An element that stuffs two extra rows into its own destination table
through a child-collection field named like that table. -/
def c10Stuffer : KRecord :=
  .mk none [.mk "s" (.int 1), .mk "T" (.childObj [c10FlatA, c10FlatB])]

/-- An element with an empty field list: scalar-free at every depth. -/
def c10BareElem : KRecord := .mk none []

/-- Claim C10, counterexample.  The claim says flattening raises an
index error for every child collection containing an element whose field
list has no scalar (BASE-classified) field.  Two refutations: (a) an
element whose only field is a nested object wrapping a scalar has no
BASE-classified field in its field list, yet flattening succeeds — the
nested scalar lands a row at the element's index, so the stamp finds it;
(b) even an element that is scalar-free at every depth does not crash
when an earlier sibling has already filled the destination table past
the element's index (here through a child-collection field named like
the destination table). -/
theorem claim_c10_counterexample :
    (c10NestedElem.fieldValues.all
      (fun f => !(get_data_type f.value == K2DataObject.BASE)) = true) ∧
    parse_child_table [] [c10NestedElem] "T" "P_None" KVal.null []
      = some [("T", [[("N_c", KVal.int 3), ("P_None", KVal.null)]])] ∧
    (recNoBase c10BareElem = true) ∧
    parse_child_table [] [c10Stuffer, c10BareElem] "T" "FK" KVal.null []
      = some [("T",
          [[("s", KVal.int 1), ("a", KVal.int 1), ("None_None", KVal.null),
            ("FK", KVal.null)],
           [("b", KVal.int 2), ("None_None", KVal.null), ("FK", KVal.null)]])] :=
  ⟨rfl, rfl, rfl, rfl⟩

/-- Claim C10 as amended: flattening does fail with an index error when
stamping the foreign key of an element whose whole subtree (through
nested objects and child collections) contains no BASE-classified field,
provided the destination table holds at most `index` rows when the
element is reached — in particular always when the element heads a
collection flattened into a fresh table. -/
theorem claim_c10_amended_scalar_free_crash (co : List K2ChildObject)
    (e : KRecord) (h1 : recNoBase e = true) :
    (∀ (rest : List KRecord) (idx : Nat) (T pkn : String) (pkv : KVal)
        (rs : List FlatRow) (td : TableData),
      alGet td T = some rs → rs.length ≤ idx →
      parse_child_items co (e :: rest) idx T pkn pkv td = none) ∧
    (∀ (rest : List KRecord) (T pkn : String) (pkv : KVal) (td : TableData),
      alGet td T = none →
      parse_child_table co (e :: rest) T pkn pkv td = none) := by
  obtain ⟨doCls, fs⟩ := e
  have hfs : fieldsNoBase fs = true := by simpa [recNoBase] using h1
  have key : ∀ (rest : List KRecord) (idx : Nat) (T pkn : String) (pkv : KVal)
      (rs : List FlatRow) (td : TableData),
      alGet td T = some rs → rs.length ≤ idx →
      parse_child_items co (KRecord.mk doCls fs :: rest) idx T pkn pkv td
        = none := by
    intro rest idx T pkn pkv rs td halg hlen
    have hrec := parse_fields_norow co (.mk doCls fs) fs T idx "" td hfs
    cases hrec with
    | inl hnone => simp only [parse_child_items, parse_field, hnone]
    | inr hsome =>
      obtain ⟨td1, heq, hpres⟩ := hsome
      have hlen1 : rowsLen td1 T = rs.length := by
        rw [hpres T, rowsLen, halg]
        rfl
      cases halg1 : alGet td1 T with
      | none => simp only [parse_child_items, parse_field, heq, halg1]
      | some rows1 =>
        have hl : rows1.length = rs.length := by
          rw [← hlen1, rowsLen, halg1]
          rfl
        have hget : rows1.get? idx = none := by
          rw [List.get?_eq_none]
          omega
        simp only [parse_child_items, parse_field, heq, halg1, hget]
  refine ⟨key, ?_⟩
  intro rest T pkn pkv td halg
  rw [parse_child_table]
  exact key rest 0 T pkn pkv [] (init_table td T) (alGet_init_of_none td T halg)
    (Nat.le_refl 0)

/-- Witness for `claim_c10_amended_scalar_free_crash`: a one-element
collection whose element has an empty field list, flattened into a fresh
table, fails (the stamp hits a missing row). -/
theorem claim_c10_amended_scalar_free_crash_witness :
    (recNoBase (KRecord.mk none []) = true) ∧
    (alGet ([] : TableData) "T" = none) ∧
    parse_child_table [] [KRecord.mk none []] "T" "FK" KVal.null [] = none :=
  ⟨rfl, rfl,
    (claim_c10_amended_scalar_free_crash [] (.mk none []) rfl).2 [] "T" "FK"
      KVal.null [] rfl⟩
